import Mathlib

/-!
Verification of the representative-state kernel UCBVI agent
(src/rlberry/agents/kernel_based/rs_kernel_ucbvi.py).

Shallow embedding over the real numbers.  Numpy arrays are embedded as
functions out of the natural numbers (with the array capacity carried
separately, mirroring numpy shapes); fallible code (numba/numpy errors,
Python exceptions) is embedded with Option / Except.

The source imports metric_lp, kernel_func and backward_induction /
backward_induction_in_place from modules that are not part of the sources
given here; those three are modelled from the spec and marked as such in
their doc comments.  Everything else is translated from
rs_kernel_ucbvi.py directly.
-/

open Finset

/-- Modelled from the spec: metric_lp from rlberry.agents.utils.metrics is not
under src.  Generalized Lp distance over element-wise-scaled vectors:
(sum over i of the absolute value of (a i - b i) / scaling i, to the power p)
to the power 1/p.  The exponent p is the integer lp_metric of the agent. -/
noncomputable def metric_lp {d : ℕ} (a b : Fin d → ℝ) (p : ℕ) (scaling : Fin d → ℝ) : ℝ :=
  (∑ i, |(a i - b i) / scaling i| ^ p) ^ ((1 : ℝ) / p)

/-- Modelled from the spec: kernel_func from rlberry.agents.kernel_based.kernels
is not under src.  The spec names the epanechnikov kernel,
weight = max(0, 1 - d ^ 2); an unrecognized kernel type is a fatal
configuration error, embedded as none. -/
noncomputable def kernel_func (u : ℝ) (kernel_type : String) : Option ℝ :=
  if kernel_type = "epanechnikov" then some (max 0 (1 - u ^ 2)) else none

/-- compute_bonus (rs_kernel_ucbvi.py lines 83-89).  The NotImplementedError on
an unknown bonus type is embedded as none. -/
noncomputable def compute_bonus (sum_weights beta bonus_scale_factor v_max : ℝ)
    (bonus_type : String) : Option ℝ :=
  let n := beta + sum_weights
  if bonus_type = "simplified_bernstein" then
    some (bonus_scale_factor * Real.sqrt (1 / n) + (1 + beta) * v_max / n)
  else none

/-- The four mutable tables passed to update_model (N_sa, B_sa, P_hat, R_hat).
Arrays are embedded as total functions; only indices below the capacity
max_repr (respectively the active count) are meaningful, as in the source
where the arrays have max_repr rows. -/
structure Tables where
  N_sa : ℕ → ℕ → ℝ
  B_sa : ℕ → ℕ → ℝ
  P_hat : ℕ → ℕ → ℕ → ℝ
  R_hat : ℕ → ℕ → ℝ

/-- update_model (rs_kernel_ucbvi.py lines 42-80).  The loop over
u_repr_state in range(n_representatives) writes disjoint rows, so it is
embedded pointwise.  Failure cases are embedded as none: the IndexError of
dirac_next_s[repr_next_state] when repr_next_state is not below
n_representatives, and the errors raised on the first loop iteration by
kernel_func / compute_bonus for unknown kernel or bonus types (when the
loop runs at all, n_representatives is positive because
repr_next_state < n_representatives). -/
noncomputable def update_model {d : ℕ} (repr_state action repr_next_state : ℕ) (reward : ℝ)
    (n_representatives : ℕ) (repr_states : ℕ → Fin d → ℝ)
    (lp_metric : ℕ) (scaling : Fin d → ℝ)
    (bandwidth bonus_scale_factor beta v_max : ℝ)
    (bonus_type kernel_type : String) (t : Tables) : Option Tables :=
  if repr_next_state < n_representatives ∧ kernel_type = "epanechnikov" ∧
      bonus_type = "simplified_bernstein" then
    let dirac_next_s : ℕ → ℝ := fun s => if s = repr_next_state then 1 else 0
    let weight : ℕ → ℝ := fun u =>
      (kernel_func (metric_lp (repr_states repr_state) (repr_states u) lp_metric scaling
          / bandwidth) kernel_type).getD 0
    let prev_N_sa : ℕ → ℝ := fun u => beta + t.N_sa u action
    let current_N_sa : ℕ → ℝ := fun u => prev_N_sa u + weight u
    some
      { N_sa := fun u a =>
          if u < n_representatives ∧ a = action then t.N_sa u a + weight u
          else t.N_sa u a
        B_sa := fun u a =>
          if u < n_representatives ∧ a = action then
            (compute_bonus (t.N_sa u a + weight u) beta bonus_scale_factor v_max
                bonus_type).getD 0
          else t.B_sa u a
        P_hat := fun u a s =>
          if u < n_representatives ∧ a = action ∧ s < n_representatives then
            dirac_next_s s * weight u / current_N_sa u
              + (prev_N_sa u / current_N_sa u) * t.P_hat u a s
          else t.P_hat u a s
        R_hat := fun u a =>
          if u < n_representatives ∧ a = action then
            weight u * reward / current_N_sa u
              + (prev_N_sa u / current_N_sa u) * t.R_hat u a
          else t.R_hat u a }
  else none

/-- The scan loop of map_to_representative (rs_kernel_ucbvi.py lines 26-32):
dist_to_closest starts at numpy inf (the top of WithTop) and argmin at -1;
index ii improves the pair exactly when its distance is strictly below the
best so far, so the first index achieving the minimum wins. -/
noncomputable def map_scan (dists : ℕ → WithTop ℝ) : ℕ → ℤ × WithTop ℝ
  | 0 => (-1, ⊤)
  | k + 1 =>
      let p := map_scan dists k
      if dists k < p.2 then ((k : ℤ), dists k) else p

/-- map_to_representative (rs_kernel_ucbvi.py lines 15-39).  The numpy array
representative_states carries its row count representative_states.shape[0];
here that capacity is the explicit argument max_representatives.  The
function both returns the chosen index and (in the creation branch) writes
the new representative row, so it returns the pair. -/
noncomputable def map_to_representative {d : ℕ} (state : Fin d → ℝ) (lp_metric : ℕ)
    (representative_states : ℕ → Fin d → ℝ) (max_representatives : ℕ)
    (n_representatives : ℕ) (min_dist : ℝ) (scaling : Fin d → ℝ)
    (accept_new_repr : Bool) : ℤ × (ℕ → Fin d → ℝ) :=
  let scan := map_scan
    (fun ii => ((metric_lp state (representative_states ii) lp_metric scaling : ℝ) :
        WithTop ℝ)) n_representatives
  if (min_dist : WithTop ℝ) < scan.2 ∧ n_representatives < max_representatives ∧
      accept_new_repr = true then
    ((n_representatives : ℤ),
      Function.update representative_states n_representatives state)
  else (scan.1, representative_states)

/-- The configuration fields set in RSKernelUCBVIAgent.__init__
(rs_kernel_ucbvi.py lines 120-251).  v_max and A are the derived values
computed there from the reward range, gamma, horizon and the action space. -/
structure Params (d : ℕ) where
  n_episodes : ℕ
  gamma : ℝ
  horizon : ℕ
  lp_metric : ℕ
  kernel_type : String
  scaling : Fin d → ℝ
  bandwidth : ℝ
  min_dist : ℝ
  max_repr : ℕ
  bonus_scale_factor : ℝ
  beta : ℝ
  bonus_type : String
  v_max : ℝ
  A : ℕ

/-- The mutable state of RSKernelUCBVIAgent.  Q_policy is None until fit
assigns it (line 304); the backward_induction result stored there is a fresh
numpy array with M rows, so the row count is kept with it. -/
structure AgentState (d : ℕ) where
  M : ℕ
  representative_states : ℕ → Fin d → ℝ
  N_sa : ℕ → ℕ → ℝ
  B_sa : ℕ → ℕ → ℝ
  P_hat : ℕ → ℕ → ℕ → ℝ
  R_hat : ℕ → ℕ → ℝ
  Q : ℕ → ℕ → ℕ → ℝ
  V : ℕ → ℕ → ℝ
  Q_policy : Option ((ℕ → ℕ → ℕ → ℝ) × ℕ)
  episode : ℕ

/-- RSKernelUCBVIAgent.reset (rs_kernel_ucbvi.py lines 253-266): all tables
zeroed, B_sa set to v_max everywhere, M = 0, Q_policy = None. -/
noncomputable def AgentState.reset {d : ℕ} (p : Params d) : AgentState d :=
  { M := 0
    representative_states := fun _ _ => 0
    N_sa := fun _ _ => 0
    B_sa := fun _ _ => p.v_max
    P_hat := fun _ _ _ => 0
    R_hat := fun _ _ => 0
    Q := fun _ _ _ => 0
    V := fun _ _ => 0
    Q_policy := none
    episode := 0 }

/-- The tables quadruple of an agent state, as passed to update_model. -/
noncomputable def AgentState.tables {d : ℕ} (a : AgentState d) : Tables :=
  { N_sa := a.N_sa, B_sa := a.B_sa, P_hat := a.P_hat, R_hat := a.R_hat }

/-- RSKernelUCBVIAgent._map_to_repr (rs_kernel_ucbvi.py lines 331-342):
call map_to_representative on the current arrays, and increment M when the
returned index equals M (a new representative was created). -/
noncomputable def agent_map_to_repr {d : ℕ} (p : Params d) (a : AgentState d)
    (state : Fin d → ℝ) (accept_new_repr : Bool) : ℤ × AgentState d :=
  let r := map_to_representative state p.lp_metric a.representative_states p.max_repr
      a.M p.min_dist p.scaling accept_new_repr
  if r.1 = (a.M : ℤ) then
    (r.1, { a with representative_states := r.2, M := a.M + 1 })
  else
    (r.1, { a with representative_states := r.2 })

/-- max of f over range A computed by a left fold, as the numpy max over the
action axis; numpy max of an empty axis is an error, here the junk value f 0. -/
noncomputable def np_max (A : ℕ) (f : ℕ → ℝ) : ℝ := ((List.range A).map f).foldl max (f 0)

/-- numpy argmax over range A: first index achieving the maximum. -/
noncomputable def np_argmax (A : ℕ) (f : ℕ → ℝ) : ℕ :=
  (List.range A).foldl (fun best b => if f best < f b then b else best) 0

/-- Python/numpy resolution of a possibly negative index against an axis of
rows entries: a negative index counts from the end. -/
def np_index (rows : ℕ) (i : ℤ) : ℤ := if i < 0 then i + rows else i

/-- Clipping of the computed values to the interval from 0 to v_max, per the
spec of the backward induction solver. -/
noncomputable def clip_v (v_max x : ℝ) : ℝ := max 0 (min x v_max)

/-- Modelled from the spec: the value table of backward induction
(rlberry.agents.dynprog.utils is not under src), indexed by the number of
remaining horizon steps: zero at no remaining steps, else the max over the
A actions of the clipped one-step Q value over the S active states. -/
noncomputable def bwd_V (R : ℕ → ℕ → ℝ) (P : ℕ → ℕ → ℕ → ℝ) (S A : ℕ)
    (gamma v_max : ℝ) : ℕ → ℕ → ℝ
  | 0, _ => 0
  | t + 1, s =>
      np_max A fun b =>
        clip_v v_max
          (R s b + gamma * ∑ s2 ∈ range S, P s b s2 * bwd_V R P S A gamma v_max t s2)

/-- Modelled from the spec: the Q value with t remaining steps after the
current one. -/
noncomputable def bwd_Q (R : ℕ → ℕ → ℝ) (P : ℕ → ℕ → ℕ → ℝ) (S A : ℕ)
    (gamma v_max : ℝ) (t : ℕ) (s b : ℕ) : ℝ :=
  clip_v v_max
    (R s b + gamma * ∑ s2 ∈ range S, P s b s2 * bwd_V R P S A gamma v_max t s2)

/-- Modelled from the spec: backward_induction / backward_induction_in_place
from rlberry.agents.dynprog.utils (not under src).  Returns the Q table
indexed by horizon step h from 0: step h uses the value table with
horizon - h - 1 steps remaining after it, so V at step horizon is 0. -/
noncomputable def backward_induction (R : ℕ → ℕ → ℝ) (P : ℕ → ℕ → ℕ → ℝ)
    (S A horizon : ℕ) (gamma v_max : ℝ) : ℕ → ℕ → ℕ → ℝ :=
  fun h s b => bwd_Q R P S A gamma v_max (horizon - h - 1) s b

/-- The backward_induction_in_place call of _run_episode (rs_kernel_ucbvi.py
lines 385-389): recompute Q[:, :M, :] and V[:, :M] in place from the
bonus-augmented rewards R_hat[:M, :] + B_sa[:M, :] and P_hat[:M, :, :M];
rows at or beyond M keep their previous contents. -/
noncomputable def exploration_solve {d : ℕ} (p : Params d) (a : AgentState d) :
    AgentState d :=
  { a with
    Q := fun h s b =>
      if s < a.M then
        backward_induction (fun u c => a.R_hat u c + a.B_sa u c) a.P_hat a.M p.A
          p.horizon p.gamma p.v_max h s b
      else a.Q h s b
    V := fun h s =>
      if s < a.M then
        bwd_V (fun u c => a.R_hat u c + a.B_sa u c) a.P_hat a.M p.A p.gamma p.v_max
          (p.horizon - h) s
      else a.V h s }

/-- The final solve of fit (rs_kernel_ucbvi.py lines 303-306): Q_policy is
assigned the backward induction of R_hat[:M, :] and P_hat[:M, :, :M] alone,
a fresh table with M rows. -/
noncomputable def recommended_policy_solve {d : ℕ} (p : Params d) (a : AgentState d) :
    AgentState d :=
  { a with
    Q_policy :=
      some (backward_induction a.R_hat a.P_hat a.M p.A p.horizon p.gamma p.v_max, a.M) }

/-- RSKernelUCBVIAgent._run_episode (rs_kernel_ucbvi.py lines 374-392).  The
H-step interaction loop with the environment collaborator (env.reset,
env.step, _get_action, _update) is abstracted as the interact argument,
returning the agent state after the rollout together with the sum of the
collected rewards; the episode then reruns backward induction in place. -/
noncomputable def run_episode {d : ℕ} (p : Params d)
    (interact : AgentState d → AgentState d × ℝ) (a : AgentState d) :
    AgentState d × ℝ :=
  let r := interact a
  (exploration_solve p r.1, r.2)

/-- The episode loop of fit (rs_kernel_ucbvi.py lines 294-301): run k
episodes, recording _rewards[kk] for each and incrementing self.episode. -/
noncomputable def fit_episodes {d : ℕ} (p : Params d)
    (interact : AgentState d → AgentState d × ℝ) :
    ℕ → AgentState d → AgentState d × (ℕ → ℝ)
  | 0, a => (a, fun _ => 0)
  | k + 1, a =>
      let prev := fit_episodes p interact k a
      let er := run_episode p interact prev.1
      ({ er.1 with episode := er.1.episode + 1 }, Function.update prev.2 k er.2)

/-- The _cumul_rewards recurrence of fit (rs_kernel_ucbvi.py lines 297-298):
entry 0 is never assigned and stays 0; entry kk + 1 adds _rewards[kk + 1]
to the previous entry. -/
noncomputable def cumul_rewards (r : ℕ → ℝ) : ℕ → ℝ
  | 0 => 0
  | k + 1 => r (k + 1) + cumul_rewards r k

/-- RSKernelUCBVIAgent.fit (rs_kernel_ucbvi.py lines 290-310): run
n_episodes episodes, then assign Q_policy from the final bonus-free solve.
Returns the final state with the _rewards and _cumul_rewards arrays (zeros
beyond n_episodes entries). -/
noncomputable def fit {d : ℕ} (p : Params d)
    (interact : AgentState d → AgentState d × ℝ) (a : AgentState d) :
    AgentState d × (ℕ → ℝ) × (ℕ → ℝ) :=
  let res := fit_episodes p interact p.n_episodes a
  (recommended_policy_solve p res.1, res.2,
    fun kk => if kk < p.n_episodes then cumul_rewards res.2 kk else 0)

/-- The two exceptions that policy / _get_action can raise: the failed
assert on Q_policy being None, and a numpy IndexError on a row index out of
bounds for the indexed table. -/
inductive PolicyErr where
  | qPolicyIsNone : PolicyErr
  | indexError : PolicyErr
deriving DecidableEq

/-- RSKernelUCBVIAgent.policy (rs_kernel_ucbvi.py lines 280-288): assert
Q_policy is not None, resolve the state without creating (allow_create
false), then take the argmax of the Q_policy row; Q_policy has as many rows
as it was created with, and a row index out of bounds for it (after Python
negative-index resolution) is an IndexError. -/
noncomputable def policy {d : ℕ} (p : Params d) (a : AgentState d) (state : Fin d → ℝ)
    (hh : ℕ) : Except PolicyErr ℕ :=
  match a.Q_policy with
  | none => Except.error PolicyErr.qPolicyIsNone
  | some qp =>
      let repr_state := (map_to_representative state p.lp_metric a.representative_states
          p.max_repr a.M p.min_dist p.scaling false).1
      let row := np_index qp.2 repr_state
      if 0 ≤ row ∧ row < (qp.2 : ℤ) then
        if p.gamma = 1 then Except.ok (np_argmax p.A fun b => qp.1 hh row.toNat b)
        else Except.ok (np_argmax p.A fun b => qp.1 0 row.toNat b)
      else Except.error PolicyErr.indexError

/-- RSKernelUCBVIAgent._get_action (rs_kernel_ucbvi.py lines 364-372): like
policy but over the exploration table Q, which always exists after reset and
has max_repr rows. -/
noncomputable def get_action {d : ℕ} (p : Params d) (a : AgentState d) (state : Fin d → ℝ)
    (hh : ℕ) : Except PolicyErr ℕ :=
  let repr_state := (map_to_representative state p.lp_metric a.representative_states
      p.max_repr a.M p.min_dist p.scaling false).1
  let row := np_index p.max_repr repr_state
  if 0 ≤ row ∧ row < (p.max_repr : ℤ) then
    if p.gamma = 1 then Except.ok (np_argmax p.A fun b => a.Q hh row.toNat b)
    else Except.ok (np_argmax p.A fun b => a.Q 0 row.toNat b)
  else Except.error PolicyErr.indexError

lemma map_scan_succ (dists : ℕ → WithTop ℝ) (k : ℕ) :
    map_scan dists (k + 1) =
      if dists k < (map_scan dists k).2 then ((k : ℤ), dists k) else map_scan dists k :=
  rfl

lemma map_scan_snd_le (dists : ℕ → WithTop ℝ) :
    ∀ n, ∀ i < n, (map_scan dists n).2 ≤ dists i := by
  intro n
  induction n with
  | zero => intro i hi; exact absurd hi (Nat.not_lt_zero i)
  | succ m ih =>
      intro i hi
      rcases Nat.lt_succ_iff_lt_or_eq.1 hi with hlt | rfl
      · by_cases h : dists m < (map_scan dists m).2
        · rw [map_scan_succ, if_pos h]
          exact le_of_lt (lt_of_lt_of_le h (ih i hlt))
        · rw [map_scan_succ, if_neg h]
          exact ih i hlt
      · by_cases h : dists i < (map_scan dists i).2
        · rw [map_scan_succ, if_pos h]
        · rw [map_scan_succ, if_neg h]
          exact le_of_not_lt h

lemma map_scan_argmin (dists : ℕ → WithTop ℝ) (hfin : ∀ i, dists i < ⊤) :
    ∀ n, 1 ≤ n → ∃ j, j < n ∧ (map_scan dists n).1 = (j : ℤ) ∧
      (map_scan dists n).2 = dists j ∧ ∀ i < j, dists j < dists i := by
  intro n
  induction n with
  | zero => intro h; exact absurd h (by norm_num)
  | succ m ih =>
      intro _
      rcases Nat.eq_zero_or_pos m with rfl | hm
      · have h0 : dists 0 < (map_scan dists 0).2 := hfin 0
        refine ⟨0, Nat.zero_lt_one, ?_, ?_, ?_⟩
        · rw [map_scan_succ, if_pos h0]
        · rw [map_scan_succ, if_pos h0]
        · intro i hi; exact absurd hi (Nat.not_lt_zero i)
      · obtain ⟨j, hj, hfst, hsnd, hmin⟩ := ih hm
        by_cases h : dists m < (map_scan dists m).2
        · refine ⟨m, Nat.lt_succ_self m, ?_, ?_, ?_⟩
          · rw [map_scan_succ, if_pos h]
          · rw [map_scan_succ, if_pos h]
          · intro i hi
            exact lt_of_lt_of_le h (map_scan_snd_le dists m i hi)
        · refine ⟨j, Nat.lt_succ_of_lt hj, ?_, ?_, hmin⟩
          · rw [map_scan_succ, if_neg h]; exact hfst
          · rw [map_scan_succ, if_neg h]; exact hsnd

lemma map_scan_fst_lt (dists : ℕ → WithTop ℝ) (n : ℕ) :
    (map_scan dists n).1 < (n : ℤ) ∧ -1 ≤ (map_scan dists n).1 := by
  induction n with
  | zero => constructor <;> norm_num [map_scan]
  | succ m ih =>
      by_cases h : dists m < (map_scan dists m).2
      · rw [map_scan_succ, if_pos h]
        refine ⟨?_, ?_⟩
        · show (m : ℤ) < ((m + 1 : ℕ) : ℤ)
          omega
        · show (-1 : ℤ) ≤ (m : ℤ)
          omega
      · rw [map_scan_succ, if_neg h]
        constructor
        · exact lt_trans ih.1 (by exact_mod_cast Nat.lt_succ_self m)
        · exact ih.2

lemma map_scan_lt_iff (dists : ℕ → WithTop ℝ) (hfin : ∀ i, dists i < ⊤)
    (c : WithTop ℝ) (hc : c < ⊤) (n : ℕ) :
    c < (map_scan dists n).2 ↔ ∀ i < n, c < dists i := by
  constructor
  · intro h i hi
    exact lt_of_lt_of_le h (map_scan_snd_le dists n i hi)
  · intro h
    rcases Nat.eq_zero_or_pos n with rfl | hn
    · simpa only [map_scan] using hc
    · obtain ⟨j, hj, _, hsnd, _⟩ := map_scan_argmin dists hfin n hn
      rw [hsnd]
      exact h j hj

/-- C2: map_to_representative scans the n active representative points and
selects the minimum-distance index, first index winning ties; it appends the
state and returns the fresh index n exactly when the minimum distance is
strictly above min_dist, the active count is strictly below the capacity,
and accept_new_repr holds; otherwise the array is unchanged and the index of
the closest existing representative (below n) is returned however far it is. -/
theorem C2_map_to_representative_correct {d : ℕ} (state : Fin d → ℝ) (lp_metric : ℕ)
    (reprs : ℕ → Fin d → ℝ) (cap n : ℕ) (min_dist : ℝ) (scaling : Fin d → ℝ)
    (accept : Bool) :
    ((∀ i < n, min_dist < metric_lp state (reprs i) lp_metric scaling) ∧ n < cap ∧
        accept = true →
      (map_to_representative state lp_metric reprs cap n min_dist scaling accept).1
          = (n : ℤ) ∧
      (map_to_representative state lp_metric reprs cap n min_dist scaling accept).2
          = Function.update reprs n state) ∧
    (¬ ((∀ i < n, min_dist < metric_lp state (reprs i) lp_metric scaling) ∧ n < cap ∧
        accept = true) →
      (map_to_representative state lp_metric reprs cap n min_dist scaling accept).2
          = reprs ∧
      (map_to_representative state lp_metric reprs cap n min_dist scaling accept).1
          < (n : ℤ) ∧
      (1 ≤ n → ∃ j : ℕ, j < n ∧
        (map_to_representative state lp_metric reprs cap n min_dist scaling accept).1
            = (j : ℤ) ∧
        (∀ i < n, metric_lp state (reprs j) lp_metric scaling
            ≤ metric_lp state (reprs i) lp_metric scaling) ∧
        (∀ i < j, metric_lp state (reprs j) lp_metric scaling
            < metric_lp state (reprs i) lp_metric scaling))) := by
  have hfin : ∀ i, ((metric_lp state (reprs i) lp_metric scaling : ℝ) : WithTop ℝ) < ⊤ :=
    fun i => WithTop.coe_lt_top _
  have hcond : ((min_dist : WithTop ℝ) <
      (map_scan (fun ii => ((metric_lp state (reprs ii) lp_metric scaling : ℝ) :
        WithTop ℝ)) n).2 ∧ n < cap ∧ accept = true)
      ↔ ((∀ i < n, min_dist < metric_lp state (reprs i) lp_metric scaling) ∧ n < cap ∧
        accept = true) := by
    rw [map_scan_lt_iff _ hfin _ (WithTop.coe_lt_top _) n]
    constructor
    · rintro ⟨h1, h2, h3⟩
      refine ⟨fun i hi => ?_, h2, h3⟩
      exact_mod_cast h1 i hi
    · rintro ⟨h1, h2, h3⟩
      refine ⟨fun i hi => ?_, h2, h3⟩
      exact_mod_cast h1 i hi
  constructor
  · intro h
    have h' := hcond.2 h
    simp only [map_to_representative]
    rw [if_pos h']
    exact ⟨rfl, rfl⟩
  · intro h
    have h' : ¬ ((min_dist : WithTop ℝ) <
        (map_scan (fun ii => ((metric_lp state (reprs ii) lp_metric scaling : ℝ) :
          WithTop ℝ)) n).2 ∧ n < cap ∧ accept = true) := fun hc => h (hcond.1 hc)
    simp only [map_to_representative]
    rw [if_neg h']
    refine ⟨rfl, (map_scan_fst_lt _ n).1, ?_⟩
    intro hn
    obtain ⟨j, hj, hfst, hsnd, hmin⟩ := map_scan_argmin _ hfin n hn
    refine ⟨j, hj, hfst, ?_, ?_⟩
    · intro i hi
      have h2 := map_scan_snd_le (fun ii => ((metric_lp state (reprs ii) lp_metric
        scaling : ℝ) : WithTop ℝ)) n i hi
      rw [hsnd] at h2
      simpa using h2
    · intro i hi
      have h2 := hmin i hi
      simpa using h2

/-- Witness for C2 at a concrete input: one existing representative, creation
refused because accept_new_repr is false. -/
theorem C2_map_to_representative_correct_witness :
    (¬ ((∀ i < 1, (1 / 2 : ℝ)
          < metric_lp (fun _ : Fin 1 => 0) ((fun _ _ => 1) i) 1 (fun _ => 1)) ∧
        1 < 2 ∧ false = true)) ∧
    ((map_to_representative (fun _ : Fin 1 => (0 : ℝ)) 1 (fun _ _ => 1) 2 1 (1 / 2)
        (fun _ => 1) false).2 = (fun _ _ => 1) ∧
      (map_to_representative (fun _ : Fin 1 => (0 : ℝ)) 1 (fun _ _ => 1) 2 1 (1 / 2)
          (fun _ => 1) false).1 < ((1 : ℕ) : ℤ) ∧
      (1 ≤ 1 → ∃ j : ℕ, j < 1 ∧
        (map_to_representative (fun _ : Fin 1 => (0 : ℝ)) 1 (fun _ _ => 1) 2 1 (1 / 2)
            (fun _ => 1) false).1 = (j : ℤ) ∧
        (∀ i < 1, metric_lp (fun _ : Fin 1 => 0) ((fun _ _ => 1) j) 1 (fun _ => 1)
            ≤ metric_lp (fun _ : Fin 1 => 0) ((fun _ _ => 1) i) 1 (fun _ => 1)) ∧
        (∀ i < j, metric_lp (fun _ : Fin 1 => 0) ((fun _ _ => 1) j) 1 (fun _ => 1)
            < metric_lp (fun _ : Fin 1 => 0) ((fun _ _ => 1) i) 1 (fun _ => 1)))) :=
  ⟨by simp, (C2_map_to_representative_correct (fun _ : Fin 1 => 0) 1 (fun _ _ => 1) 2 1
      (1 / 2) (fun _ => 1) false).2 (by simp)⟩

lemma map_to_representative_fst_cases {d : ℕ} (state : Fin d → ℝ) (lp_metric : ℕ)
    (reprs : ℕ → Fin d → ℝ) (cap n : ℕ) (min_dist : ℝ) (scaling : Fin d → ℝ)
    (accept : Bool) :
    ((map_to_representative state lp_metric reprs cap n min_dist scaling accept).1
        = (n : ℤ) ∧ n < cap) ∨
    (map_to_representative state lp_metric reprs cap n min_dist scaling accept).1
        < (n : ℤ) := by
  simp only [map_to_representative]
  split_ifs with h
  · exact Or.inl ⟨rfl, h.2.1⟩
  · exact Or.inr (map_scan_fst_lt _ n).1

/-- C5: with allow_create true, the resolve step returns an index strictly
below the updated active count M_after, M_after stays at most max_repr, and
M grows by at most one per call: by exactly one when a representative is
created (the fresh index M is returned), by zero otherwise. -/
theorem C5_resolve_index_and_count {d : ℕ} (p : Params d) (a : AgentState d)
    (s : Fin d → ℝ) (hM : a.M ≤ p.max_repr) :
    (agent_map_to_repr p a s true).1 < (((agent_map_to_repr p a s true).2.M : ℕ) : ℤ) ∧
    (agent_map_to_repr p a s true).2.M ≤ p.max_repr ∧
    a.M ≤ (agent_map_to_repr p a s true).2.M ∧
    (agent_map_to_repr p a s true).2.M ≤ a.M + 1 ∧
    ((agent_map_to_repr p a s true).1 = (a.M : ℤ) →
      (agent_map_to_repr p a s true).2.M = a.M + 1) ∧
    ((agent_map_to_repr p a s true).1 ≠ (a.M : ℤ) →
      (agent_map_to_repr p a s true).2.M = a.M) := by
  rcases map_to_representative_fst_cases s p.lp_metric a.representative_states
      p.max_repr a.M p.min_dist p.scaling true with ⟨heq, hcap⟩ | hlt
  · have hres : agent_map_to_repr p a s true =
        ((map_to_representative s p.lp_metric a.representative_states p.max_repr a.M
            p.min_dist p.scaling true).1,
          { a with
            representative_states := (map_to_representative s p.lp_metric
              a.representative_states p.max_repr a.M p.min_dist p.scaling true).2,
            M := a.M + 1 }) := by
      simp only [agent_map_to_repr]
      rw [if_pos heq]
    rw [hres]
    refine ⟨?_, ?_, ?_, ?_, fun _ => rfl, fun hne => absurd heq hne⟩
    · show (map_to_representative s p.lp_metric a.representative_states p.max_repr a.M
          p.min_dist p.scaling true).1 < ((a.M + 1 : ℕ) : ℤ)
      rw [heq]
      exact_mod_cast Nat.lt_succ_self a.M
    · show a.M + 1 ≤ p.max_repr
      omega
    · show a.M ≤ a.M + 1
      omega
    · show a.M + 1 ≤ a.M + 1
      omega
  · have hne : (map_to_representative s p.lp_metric a.representative_states p.max_repr
        a.M p.min_dist p.scaling true).1 ≠ (a.M : ℤ) := ne_of_lt hlt
    have hres : agent_map_to_repr p a s true =
        ((map_to_representative s p.lp_metric a.representative_states p.max_repr a.M
            p.min_dist p.scaling true).1,
          { a with
            representative_states := (map_to_representative s p.lp_metric
              a.representative_states p.max_repr a.M p.min_dist p.scaling true).2 }) := by
      simp only [agent_map_to_repr]
      rw [if_neg hne]
    rw [hres]
    refine ⟨?_, ?_, ?_, ?_, fun hc => absurd hc hne, fun _ => rfl⟩
    · show (map_to_representative s p.lp_metric a.representative_states p.max_repr a.M
          p.min_dist p.scaling true).1 < ((a.M : ℕ) : ℤ)
      exact hlt
    · show a.M ≤ p.max_repr
      exact hM
    · show a.M ≤ a.M
      exact le_refl _
    · show a.M ≤ a.M + 1
      omega

/-- A concrete agent configuration used by the witnesses: one state
dimension, one action, horizon 1, gamma 0, epanechnikov kernel,
simplified_bernstein bonus, beta 1/100, v_max 1, capacity 3, two episodes. -/
noncomputable def pEx : Params 1 :=
  { n_episodes := 2
    gamma := 0
    horizon := 1
    lp_metric := 1
    kernel_type := "epanechnikov"
    scaling := fun _ => 1
    bandwidth := 1
    min_dist := 1 / 10
    max_repr := 3
    bonus_scale_factor := 1
    beta := 1 / 100
    bonus_type := "simplified_bernstein"
    v_max := 1
    A := 1 }

/-- Witness for C5: the freshly reset agent (M = 0, capacity 3). -/
theorem C5_resolve_index_and_count_witness :
    (AgentState.reset pEx).M ≤ pEx.max_repr ∧
    ((agent_map_to_repr pEx (AgentState.reset pEx) (fun _ => 0) true).1
        < (((agent_map_to_repr pEx (AgentState.reset pEx) (fun _ => 0) true).2.M : ℕ) : ℤ) ∧
      (agent_map_to_repr pEx (AgentState.reset pEx) (fun _ => 0) true).2.M ≤ pEx.max_repr ∧
      (AgentState.reset pEx).M
          ≤ (agent_map_to_repr pEx (AgentState.reset pEx) (fun _ => 0) true).2.M ∧
      (agent_map_to_repr pEx (AgentState.reset pEx) (fun _ => 0) true).2.M
          ≤ (AgentState.reset pEx).M + 1 ∧
      ((agent_map_to_repr pEx (AgentState.reset pEx) (fun _ => 0) true).1
          = ((AgentState.reset pEx).M : ℤ) →
        (agent_map_to_repr pEx (AgentState.reset pEx) (fun _ => 0) true).2.M
            = (AgentState.reset pEx).M + 1) ∧
      ((agent_map_to_repr pEx (AgentState.reset pEx) (fun _ => 0) true).1
          ≠ ((AgentState.reset pEx).M : ℤ) →
        (agent_map_to_repr pEx (AgentState.reset pEx) (fun _ => 0) true).2.M
            = (AgentState.reset pEx).M)) :=
  ⟨by simp [AgentState.reset],
    C5_resolve_index_and_count pEx (AgentState.reset pEx) (fun _ => 0)
      (by simp [AgentState.reset])⟩

/-- C4: for the simplified_bernstein type, compute_bonus returns
bonus_scale_factor * sqrt(1/n) + (1 + beta) * v_max / n with
n = beta + sum_weights, and the returned value is non-increasing in the
accumulated weight for fixed beta > 0, bonus_scale_factor >= 0, v_max >= 0. -/
theorem C4_bonus_formula_and_monotone (beta bonus_scale_factor v_max n1 n2 : ℝ)
    (hb : 0 < beta) (hsf : 0 ≤ bonus_scale_factor) (hv : 0 ≤ v_max)
    (h1 : 0 ≤ n1) (h12 : n1 ≤ n2) :
    compute_bonus n1 beta bonus_scale_factor v_max "simplified_bernstein"
        = some (bonus_scale_factor * Real.sqrt (1 / (beta + n1))
            + (1 + beta) * v_max / (beta + n1)) ∧
    (compute_bonus n2 beta bonus_scale_factor v_max "simplified_bernstein").getD 0
        ≤ (compute_bonus n1 beta bonus_scale_factor v_max "simplified_bernstein").getD 0 := by
  have hp1 : 0 < beta + n1 := by linarith
  have hp2 : 0 < beta + n2 := by linarith
  constructor
  · simp [compute_bonus]
  · have hinv : 1 / (beta + n2) ≤ 1 / (beta + n1) :=
      one_div_le_one_div_of_le hp1 (by linarith)
    have hs : Real.sqrt (1 / (beta + n2)) ≤ Real.sqrt (1 / (beta + n1)) :=
      Real.sqrt_le_sqrt hinv
    have hmul : bonus_scale_factor * Real.sqrt (1 / (beta + n2))
        ≤ bonus_scale_factor * Real.sqrt (1 / (beta + n1)) :=
      mul_le_mul_of_nonneg_left hs hsf
    have hnum : 0 ≤ (1 + beta) * v_max := mul_nonneg (by linarith) hv
    have hdiv : (1 + beta) * v_max / (beta + n2) ≤ (1 + beta) * v_max / (beta + n1) := by
      rw [div_le_div_iff₀ hp2 hp1]
      nlinarith
    simp only [compute_bonus, if_pos, Option.getD_some]
    linarith

/-- Witness for C4 at beta = 1/100, bonus_scale_factor = v_max = 1,
weights 0 and 1. -/
theorem C4_bonus_formula_and_monotone_witness :
    ((0 : ℝ) < 1 / 100 ∧ (0 : ℝ) ≤ 1 ∧ (0 : ℝ) ≤ 0 ∧ (0 : ℝ) ≤ 1) ∧
    (compute_bonus 0 (1 / 100) 1 1 "simplified_bernstein"
        = some (1 * Real.sqrt (1 / (1 / 100 + 0)) + (1 + 1 / 100) * 1 / (1 / 100 + 0)) ∧
      (compute_bonus 1 (1 / 100) 1 1 "simplified_bernstein").getD 0
          ≤ (compute_bonus 0 (1 / 100) 1 1 "simplified_bernstein").getD 0) :=
  ⟨⟨by norm_num, by norm_num, le_refl 0, by norm_num⟩,
    C4_bonus_formula_and_monotone (1 / 100) 1 1 0 1 (by norm_num) (by norm_num)
      (by norm_num) (le_refl 0) (by norm_num)⟩

/-- C7: compute_bonus raises (returns none) exactly when the bonus type is
not simplified_bernstein, and for simplified_bernstein with positive
regularized count it returns a value. -/
theorem C7_unknown_bonus_type_fatal (sum_weights beta bonus_scale_factor v_max : ℝ)
    (bt : String) :
    (compute_bonus sum_weights beta bonus_scale_factor v_max bt = none ↔
      bt ≠ "simplified_bernstein") ∧
    (0 < beta + sum_weights →
      (compute_bonus sum_weights beta bonus_scale_factor v_max
          "simplified_bernstein").isSome = true) := by
  constructor
  · simp only [compute_bonus]
    split_ifs with h
    · simp [h]
    · simp [h]
  · intro _
    simp [compute_bonus]

/-- Witness for C7: the unknown type gaussian raises, simplified_bernstein
with n = 1 + 1 > 0 returns a value. -/
theorem C7_unknown_bonus_type_fatal_witness :
    ((0 : ℝ) < 1 + 1) ∧
    (compute_bonus 1 1 1 1 "gaussian" = none ↔ "gaussian" ≠ "simplified_bernstein") ∧
    (compute_bonus 1 1 1 1 "simplified_bernstein").isSome = true :=
  ⟨by norm_num, (C7_unknown_bonus_type_fatal 1 1 1 1 "gaussian").1,
    (C7_unknown_bonus_type_fatal 1 1 1 1 "gaussian").2 (by norm_num)⟩

lemma kernel_func_getD_nonneg (x : ℝ) (kt : String) : 0 ≤ (kernel_func x kt).getD 0 := by
  simp only [kernel_func]
  split_ifs
  · simp only [Option.getD_some]
    exact le_max_left 0 _
  · simp

/-- The tables as initialized by reset (rs_kernel_ucbvi.py lines 256-260):
N_sa, P_hat, R_hat zero, B_sa = v_max everywhere. -/
noncomputable def reset_tables (v_max : ℝ) : Tables :=
  { N_sa := fun _ _ => 0
    B_sa := fun _ _ => v_max
    P_hat := fun _ _ _ => 0
    R_hat := fun _ _ => 0 }

/-- One recorded call to update_model during training: the active count and
representative array at the time of the call, plus the resolved transition. -/
structure UStep (d : ℕ) where
  n_representatives : ℕ
  repr_states : ℕ → Fin d → ℝ
  repr_state : ℕ
  action : ℕ
  repr_next_state : ℕ
  reward : ℝ

/-- Sequential application of update_model along a list of recorded calls,
with the agent configuration fixed as in the source (the configuration never
changes between calls). -/
noncomputable def apply_updates {d : ℕ} (lp_metric : ℕ) (scaling : Fin d → ℝ)
    (bandwidth bonus_scale_factor beta v_max : ℝ) (bonus_type kernel_type : String) :
    List (UStep d) → Tables → Option Tables
  | [], t => some t
  | st :: rest, t =>
      match update_model st.repr_state st.action st.repr_next_state st.reward
          st.n_representatives st.repr_states lp_metric scaling bandwidth
          bonus_scale_factor beta v_max bonus_type kernel_type t with
      | none => none
      | some t2 => apply_updates lp_metric scaling bandwidth bonus_scale_factor beta
          v_max bonus_type kernel_type rest t2

/-- The active counts along a trace never decrease, starting from m: this is
what _map_to_repr guarantees in the source, where M only grows. -/
def ChainedFrom {d : ℕ} (m : ℕ) : List (UStep d) → Prop
  | [] => True
  | st :: rest => m ≤ st.n_representatives ∧ ChainedFrom st.n_representatives rest

/-- The active count at the end of a trace (m when the trace is empty). -/
def trace_end {d : ℕ} (m : ℕ) : List (UStep d) → ℕ
  | [] => m
  | st :: rest => trace_end st.n_representatives rest

/-- All observed rewards of a trace lie in the closed interval from r_min
to r_max. -/
def RewardsIn {d : ℕ} (r_min r_max : ℝ) (l : List (UStep d)) : Prop :=
  ∀ st ∈ l, r_min ≤ st.reward ∧ st.reward ≤ r_max

/-- Invariant of the transition table: weights are non-negative, the row of
every pair vanishes from index m on, and the row sums to
N_sa / (beta + N_sa), which is strictly below 1 for positive beta. -/
def PRowInv (beta : ℝ) (m : ℕ) (t : Tables) : Prop :=
  ∀ u a, 0 ≤ t.N_sa u a ∧ (∀ s, 0 ≤ t.P_hat u a s) ∧
    (∀ s, m ≤ s → t.P_hat u a s = 0) ∧
    (∑ s ∈ range m, t.P_hat u a s) = t.N_sa u a / (beta + t.N_sa u a)

/-- Invariant of the reward table: every entry lies between min r_min 0 and
max r_max 0 (the convex hull of the initial value 0 with the reward range). -/
def RRangeInv (r_min r_max : ℝ) (t : Tables) : Prop :=
  ∀ u a, 0 ≤ t.N_sa u a ∧ min r_min 0 ≤ t.R_hat u a ∧ t.R_hat u a ≤ max r_max 0

lemma PRowInv_reset (beta v_max : ℝ) (m : ℕ) : PRowInv beta m (reset_tables v_max) := by
  intro u a
  refine ⟨le_refl 0, fun s => le_refl 0, fun s _ => rfl, ?_⟩
  simp [reset_tables]

lemma RRangeInv_reset (r_min r_max v_max : ℝ) : RRangeInv r_min r_max (reset_tables v_max) := by
  intro u a
  exact ⟨le_refl 0, min_le_right r_min 0, le_max_right r_max 0⟩


lemma update_model_PRowInv {d : ℕ}
    (repr_state action repr_next_state : ℕ) (reward : ℝ) (n : ℕ)
    (repr_states : ℕ → Fin d → ℝ) (lp_metric : ℕ) (scaling : Fin d → ℝ)
    (bandwidth bsf beta v_max : ℝ) (bt kt : String) (t t2 : Tables)
    (hb : 0 < beta) (m : ℕ) (hmn : m ≤ n)
    (h : update_model repr_state action repr_next_state reward n repr_states lp_metric
        scaling bandwidth bsf beta v_max bt kt t = some t2)
    (hinv : PRowInv beta m t) : PRowInv beta n t2 := by
  simp only [update_model] at h
  split_ifs at h with hcond
  obtain ⟨hrns, hkt, hbt⟩ := hcond
  have ht2 := Option.some.inj h
  subst ht2
  intro u a
  dsimp only
  set w : ℝ := (kernel_func (metric_lp (repr_states repr_state) (repr_states u)
      lp_metric scaling / bandwidth) kt).getD 0 with hw_def
  have hw : 0 ≤ w := kernel_func_getD_nonneg _ _
  have hNu := (hinv u action).1
  have hpN : 0 < beta + t.N_sa u action := by linarith
  have hcN : 0 < beta + t.N_sa u action + w := by linarith
  refine ⟨?_, ?_, ?_, ?_⟩
  · split_ifs with hu
    · have h9 := (hinv u a).1
      linarith
    · exact (hinv u a).1
  · intro s
    have h2 : (0 : ℝ) ≤ (beta + t.N_sa u action) / (beta + t.N_sa u action + w)
        * t.P_hat u a s :=
      mul_nonneg (div_nonneg (le_of_lt hpN) (le_of_lt hcN)) ((hinv u a).2.1 s)
    split_ifs with hs hsd
    · have h1 : (0 : ℝ) ≤ 1 * w / (beta + t.N_sa u action + w) :=
        div_nonneg (by linarith) (le_of_lt hcN)
      linarith
    · simpa using h2
    · exact (hinv u a).2.1 s
  · intro s hs
    rw [if_neg (fun hc => absurd hc.2.2 (not_lt.2 hs))]
    exact (hinv u a).2.2.1 s (le_trans hmn hs)
  · by_cases hu : u < n ∧ a = action
    · obtain ⟨hun, hact⟩ := hu
      simp only [hact, hun, eq_self_iff_true, and_true, true_and, if_true]
      rw [Finset.sum_congr rfl (fun s hs => if_pos (Finset.mem_range.1 hs))]
      rw [Finset.sum_add_distrib]
      rw [Finset.sum_congr rfl (fun s _ =>
        show (if s = repr_next_state then (1 : ℝ) else 0) * w
            / (beta + t.N_sa u action + w)
          = (if s = repr_next_state then w / (beta + t.N_sa u action + w) else 0) by
        split_ifs <;> ring)]
      rw [Finset.sum_ite_eq' (range n) repr_next_state
        (fun _ => w / (beta + t.N_sa u action + w))]
      rw [if_pos (Finset.mem_range.2 hrns)]
      rw [← Finset.mul_sum]
      have hPn : ∑ s ∈ range n, t.P_hat u action s
          = ∑ s ∈ range m, t.P_hat u action s := by
        refine (Finset.sum_subset (Finset.range_subset.2 hmn) ?_).symm
        intro x _ hxm
        exact (hinv u action).2.2.1 x (le_of_not_lt fun hc => hxm (Finset.mem_range.2 hc))
      rw [hPn, (hinv u action).2.2.2]
      have h1 : beta + t.N_sa u action ≠ 0 := ne_of_gt hpN
      have h2 : beta + t.N_sa u action + w ≠ 0 := ne_of_gt hcN
      have h3 : beta + (t.N_sa u action + w) ≠ 0 := by
        rw [← add_assoc]
        exact h2
      field_simp
      ring
    · rw [if_neg hu]
      rw [Finset.sum_congr rfl (fun s hs =>
        if_neg (fun hc => hu ⟨hc.1, hc.2.1⟩))]
      have hPn : ∑ s ∈ range n, t.P_hat u a s = ∑ s ∈ range m, t.P_hat u a s := by
        refine (Finset.sum_subset (Finset.range_subset.2 hmn) ?_).symm
        intro x _ hxm
        exact (hinv u a).2.2.1 x (le_of_not_lt fun hc => hxm (Finset.mem_range.2 hc))
      rw [hPn]
      exact (hinv u a).2.2.2

lemma update_model_RRangeInv {d : ℕ}
    (repr_state action repr_next_state : ℕ) (reward : ℝ) (n : ℕ)
    (repr_states : ℕ → Fin d → ℝ) (lp_metric : ℕ) (scaling : Fin d → ℝ)
    (bandwidth bsf beta v_max : ℝ) (bt kt : String) (t t2 : Tables)
    (r_min r_max : ℝ) (hb : 0 < beta) (hr1 : r_min ≤ reward) (hr2 : reward ≤ r_max)
    (h : update_model repr_state action repr_next_state reward n repr_states lp_metric
        scaling bandwidth bsf beta v_max bt kt t = some t2)
    (hinv : RRangeInv r_min r_max t) : RRangeInv r_min r_max t2 := by
  simp only [update_model] at h
  split_ifs at h with hcond
  obtain ⟨hrns, hkt, hbt⟩ := hcond
  have ht2 := Option.some.inj h
  subst ht2
  intro u a
  dsimp only
  set w : ℝ := (kernel_func (metric_lp (repr_states repr_state) (repr_states u)
      lp_metric scaling / bandwidth) kt).getD 0 with hw_def
  have hw : 0 ≤ w := kernel_func_getD_nonneg _ _
  have hNu := (hinv u action).1
  have hpN : 0 < beta + t.N_sa u action := by linarith
  have hcN : 0 < beta + t.N_sa u action + w := by linarith
  refine ⟨?_, ?_, ?_⟩
  · split_ifs with hu
    · have h9 := (hinv u a).1
      linarith
    · exact (hinv u a).1
  · split_ifs with hu
    · have hR := (hinv u a).2.1
      have hlo : min r_min 0 ≤ reward := le_trans (min_le_left _ _) hr1
      rw [div_mul_eq_mul_div, div_add_div_same, le_div_iff₀ hcN]
      nlinarith [mul_nonneg hw (sub_nonneg.2 hlo),
        mul_nonneg (le_of_lt hpN) (sub_nonneg.2 hR)]
    · exact (hinv u a).2.1
  · split_ifs with hu
    · have hR := (hinv u a).2.2
      have hhi : reward ≤ max r_max 0 := le_trans hr2 (le_max_left _ _)
      rw [div_mul_eq_mul_div, div_add_div_same, div_le_iff₀ hcN]
      nlinarith [mul_nonneg hw (sub_nonneg.2 hhi),
        mul_nonneg (le_of_lt hpN) (sub_nonneg.2 hR)]
    · exact (hinv u a).2.2

lemma apply_updates_PRowInv {d : ℕ} (lp_metric : ℕ) (scaling : Fin d → ℝ)
    (bandwidth bsf beta v_max : ℝ) (bt kt : String) (hb : 0 < beta) :
    ∀ (l : List (UStep d)) (m : ℕ) (t t2 : Tables), ChainedFrom m l →
      apply_updates lp_metric scaling bandwidth bsf beta v_max bt kt l t = some t2 →
      PRowInv beta m t → PRowInv beta (trace_end m l) t2 := by
  intro l
  induction l with
  | nil =>
      intro m t t2 _ h hinv
      simp only [apply_updates] at h
      rw [← Option.some.inj h]
      exact hinv
  | cons st rest ih =>
      intro m t t2 hchain h hinv
      simp only [apply_updates] at h
      cases hum : update_model st.repr_state st.action st.repr_next_state st.reward
          st.n_representatives st.repr_states lp_metric scaling bandwidth bsf beta
          v_max bt kt t with
      | none =>
          rw [hum] at h
          exact Option.noConfusion h
      | some tmid =>
          rw [hum] at h
          exact ih st.n_representatives tmid t2 hchain.2 h
            (update_model_PRowInv st.repr_state st.action st.repr_next_state st.reward
              st.n_representatives st.repr_states lp_metric scaling bandwidth bsf beta
              v_max bt kt t tmid hb m hchain.1 hum hinv)

lemma apply_updates_RRangeInv {d : ℕ} (lp_metric : ℕ) (scaling : Fin d → ℝ)
    (bandwidth bsf beta v_max r_min r_max : ℝ) (bt kt : String) (hb : 0 < beta) :
    ∀ (l : List (UStep d)) (t t2 : Tables), RewardsIn r_min r_max l →
      apply_updates lp_metric scaling bandwidth bsf beta v_max bt kt l t = some t2 →
      RRangeInv r_min r_max t → RRangeInv r_min r_max t2 := by
  intro l
  induction l with
  | nil =>
      intro t t2 _ h hinv
      simp only [apply_updates] at h
      rw [← Option.some.inj h]
      exact hinv
  | cons st rest ih =>
      intro t t2 hrew h hinv
      simp only [apply_updates] at h
      cases hum : update_model st.repr_state st.action st.repr_next_state st.reward
          st.n_representatives st.repr_states lp_metric scaling bandwidth bsf beta
          v_max bt kt t with
      | none =>
          rw [hum] at h
          exact Option.noConfusion h
      | some tmid =>
          rw [hum] at h
          have hst := hrew st (List.mem_cons_self st rest)
          exact ih tmid t2 (fun s hs => hrew s (List.mem_cons_of_mem st hs)) h
            (update_model_RRangeInv st.repr_state st.action st.repr_next_state st.reward
              st.n_representatives st.repr_states lp_metric scaling bandwidth bsf beta
              v_max bt kt t tmid r_min r_max hb hst.1 hst.2 hum hinv)

/-- C1 (amended): starting from the reset tables and applying any chained
sequence of successful update_model calls with beta > 0, every entry of
every active transition row is non-negative and the row of every pair sums
to N_sa / (beta + N_sa) over the active states, which is at most 1 (and
strictly below 1, not equal to 1 as claimed, whenever beta > 0). -/
theorem C1_transition_rows_amended {d : ℕ} (lp_metric : ℕ) (scaling : Fin d → ℝ)
    (bandwidth bsf beta v_max : ℝ) (bt kt : String) (hb : 0 < beta)
    (l : List (UStep d)) (hchain : ChainedFrom 0 l) (t2 : Tables)
    (h : apply_updates lp_metric scaling bandwidth bsf beta v_max bt kt l
        (reset_tables v_max) = some t2) :
    ∀ u a, (∀ s, 0 ≤ t2.P_hat u a s) ∧
      (∑ s ∈ range (trace_end 0 l), t2.P_hat u a s)
          = t2.N_sa u a / (beta + t2.N_sa u a) ∧
      (∑ s ∈ range (trace_end 0 l), t2.P_hat u a s) ≤ 1 := by
  have hres := apply_updates_PRowInv lp_metric scaling bandwidth bsf beta v_max bt kt
    hb l 0 (reset_tables v_max) t2 hchain h (PRowInv_reset beta v_max 0)
  intro u a
  have hN := (hres u a).1
  refine ⟨(hres u a).2.1, (hres u a).2.2.2, ?_⟩
  rw [(hres u a).2.2.2]
  rw [div_le_one (by linarith)]
  linarith

/-- Witness for C1 (amended) on the empty trace from reset. -/
theorem C1_transition_rows_amended_witness :
    ((0 : ℝ) < 1 / 100) ∧ ChainedFrom 0 ([] : List (UStep 1)) ∧
    (apply_updates 1 (fun _ => 1) 1 1 (1 / 100) 1 "simplified_bernstein"
        "epanechnikov" ([] : List (UStep 1)) (reset_tables 1) = some (reset_tables 1)) ∧
    (∀ u a, (∀ s, 0 ≤ (reset_tables 1).P_hat u a s) ∧
      (∑ s ∈ range (trace_end 0 ([] : List (UStep 1))), (reset_tables 1).P_hat u a s)
          = (reset_tables 1).N_sa u a / (1 / 100 + (reset_tables 1).N_sa u a) ∧
      (∑ s ∈ range (trace_end 0 ([] : List (UStep 1))), (reset_tables 1).P_hat u a s) ≤ 1) :=
  ⟨by norm_num, trivial, rfl,
    C1_transition_rows_amended 1 (fun _ => 1) 1 1 (1 / 100) 1 "simplified_bernstein"
      "epanechnikov" (by norm_num) [] trivial (reset_tables 1) rfl⟩

/-- C3 (amended): under beta > 0, if every observed reward of a successful
update trace lies in the closed interval from r_min to r_max then every
reward-estimate entry stays in the convex hull of that interval and the
initial value 0, i.e. between min r_min 0 and max r_max 0. -/
theorem C3_reward_range_amended {d : ℕ} (lp_metric : ℕ) (scaling : Fin d → ℝ)
    (bandwidth bsf beta v_max r_min r_max : ℝ) (bt kt : String) (hb : 0 < beta)
    (l : List (UStep d)) (hrew : RewardsIn r_min r_max l) (t2 : Tables)
    (h : apply_updates lp_metric scaling bandwidth bsf beta v_max bt kt l
        (reset_tables v_max) = some t2) :
    ∀ u a, min r_min 0 ≤ t2.R_hat u a ∧ t2.R_hat u a ≤ max r_max 0 := by
  have hres := apply_updates_RRangeInv lp_metric scaling bandwidth bsf beta v_max
    r_min r_max bt kt hb l (reset_tables v_max) t2 hrew h
    (RRangeInv_reset r_min r_max v_max)
  intro u a
  exact ⟨(hres u a).2.1, (hres u a).2.2⟩

/-- Witness for C3 (amended) on the empty trace from reset. -/
theorem C3_reward_range_amended_witness :
    ((0 : ℝ) < 1 / 100) ∧ RewardsIn 0 1 ([] : List (UStep 1)) ∧
    (apply_updates 1 (fun _ => 1) 1 1 (1 / 100) 1 "simplified_bernstein"
        "epanechnikov" ([] : List (UStep 1)) (reset_tables 1) = some (reset_tables 1)) ∧
    (∀ u a, min (0 : ℝ) 0 ≤ (reset_tables 1).R_hat u a ∧
      (reset_tables 1).R_hat u a ≤ max (1 : ℝ) 0) :=
  ⟨by norm_num, fun st hst => absurd hst (List.not_mem_nil st), rfl,
    @C3_reward_range_amended 1 1 (fun _ => 1) 1 1 (1 / 100) 1 0 1 "simplified_bernstein"
      "epanechnikov" (by norm_num) [] (fun st hst => absurd hst (List.not_mem_nil st))
      (reset_tables 1) rfl⟩

/-- Counterexample to C1 as stated: one successful update_model call from
reset (beta = 1/100, the updated pair at kernel weight 1), after which the
transition row of the updated pair sums to 100/101 over the single active
state, not to 1.  The defect is the beta regularization mass in the
denominator, which never enters the numerator. -/
theorem C1_row_sum_counterexample :
    ((update_model 0 0 0 1 1 (fun (_ : ℕ) (_ : Fin 1) => (0 : ℝ)) 1 (fun _ => 1) 1 1
        (1 / 100) 1 "simplified_bernstein" "epanechnikov" (reset_tables 1)).map
      (fun t => ∑ s ∈ range 1, t.P_hat 0 0 s)) = some (100 / 101) ∧
    (100 / 101 : ℝ) ≠ 1 := by
  constructor
  · unfold update_model
    split_ifs with hg
    · norm_num [reset_tables, kernel_func, metric_lp, Finset.sum_range_one]
    · exact absurd ⟨Nat.zero_lt_one, rfl, rfl⟩ hg
  · norm_num

/-- Counterexample to C3 as stated: with reward range r_min = r_max = 1, one
successful update_model call from reset with observed reward 1 (inside the
range) leaves R_hat[0, 0] = 100/101, strictly below r_min = 1, because the
beta-regularized average mixes in the zero initial estimate. -/
theorem C3_reward_range_counterexample :
    ((1 : ℝ) ≤ 1 ∧ (1 : ℝ) ≤ 1) ∧
    ((update_model 0 0 0 1 1 (fun (_ : ℕ) (_ : Fin 1) => (0 : ℝ)) 1 (fun _ => 1) 1 1
        (1 / 100) 1 "simplified_bernstein" "epanechnikov" (reset_tables 1)).map
      (fun t => t.R_hat 0 0)) = some (100 / 101) ∧
    ¬ ((1 : ℝ) ≤ (100 / 101 : ℝ)) := by
  refine ⟨⟨le_refl 1, le_refl 1⟩, ?_, by norm_num⟩
  unfold update_model
  split_ifs with hg
  · norm_num [reset_tables, kernel_func, metric_lp]
  · exact absurd ⟨Nat.zero_lt_one, rfl, rfl⟩ hg

lemma cumul_rewards_eq_sum (r : ℕ → ℝ) : ∀ k, cumul_rewards r k = ∑ j ∈ range k, r (j + 1) := by
  intro k
  induction k with
  | zero => simp [cumul_rewards]
  | succ n ih =>
      simp only [cumul_rewards]
      rw [ih, Finset.sum_range_succ]
      ring

/-- C9: the _cumul_rewards array produced by fit keeps entry 0 at 0 whatever
the first episode returned (the kk > 0 guard skips it), satisfies
_cumul_rewards[kk+1] = _rewards[kk+1] + _cumul_rewards[kk] for the later
entries, and therefore its running total sums episodes 1, 2, ... only,
omitting the reward of episode 0. -/
theorem C9_cumul_rewards_skip_first {d : ℕ} (p : Params d)
    (interact : AgentState d → AgentState d × ℝ) (a : AgentState d) :
    (fit p interact a).2.2 0 = 0 ∧
    (∀ kk, kk + 1 < p.n_episodes →
      (fit p interact a).2.2 (kk + 1)
          = (fit p interact a).2.1 (kk + 1) + (fit p interact a).2.2 kk) ∧
    (∀ kk, kk < p.n_episodes →
      (fit p interact a).2.2 kk = ∑ j ∈ range kk, (fit p interact a).2.1 (j + 1)) ∧
    (1 ≤ p.n_episodes →
      (fit p interact a).2.2 (p.n_episodes - 1)
          = (∑ j ∈ range p.n_episodes, (fit p interact a).2.1 j)
              - (fit p interact a).2.1 0) := by
  simp only [fit]
  refine ⟨?_, ?_, ?_, ?_⟩
  · split_ifs <;> rfl
  · intro kk hkk
    rw [if_pos hkk, if_pos (by omega)]
    rfl
  · intro kk hkk
    rw [if_pos hkk]
    exact cumul_rewards_eq_sum _ kk
  · intro h1
    rw [if_pos (by omega), cumul_rewards_eq_sum]
    obtain ⟨m, hm⟩ : ∃ m, p.n_episodes = m + 1 := ⟨p.n_episodes - 1, by omega⟩
    rw [hm]
    simp only [Nat.add_sub_cancel]
    rw [Finset.sum_range_succ']
    ring

/-- Witness for C9 with two episodes and a constant interaction. -/
theorem C9_cumul_rewards_skip_first_witness :
    (0 + 1 < pEx.n_episodes ∧ 1 ≤ pEx.n_episodes) ∧
    ((fit pEx (fun a => (a, 5)) (AgentState.reset pEx)).2.2 (0 + 1)
        = (fit pEx (fun a => (a, 5)) (AgentState.reset pEx)).2.1 (0 + 1)
            + (fit pEx (fun a => (a, 5)) (AgentState.reset pEx)).2.2 0 ∧
      (fit pEx (fun a => (a, 5)) (AgentState.reset pEx)).2.2 (pEx.n_episodes - 1)
          = (∑ j ∈ range pEx.n_episodes,
              (fit pEx (fun a => (a, 5)) (AgentState.reset pEx)).2.1 j)
              - (fit pEx (fun a => (a, 5)) (AgentState.reset pEx)).2.1 0) :=
  ⟨⟨by norm_num [pEx], by norm_num [pEx]⟩,
    (C9_cumul_rewards_skip_first pEx (fun a => (a, 5)) (AgentState.reset pEx)).2.1 0
      (by norm_num [pEx]),
    (C9_cumul_rewards_skip_first pEx (fun a => (a, 5)) (AgentState.reset pEx)).2.2.2
      (by norm_num [pEx])⟩

/-- C10: policy raises the assert (Q_policy is None) on any freshly reset or
constructed agent, and never raises that assert after fit, which always
assigns Q_policy in its final bonus-free solve. -/
theorem C10_policy_requires_fit :
    (∀ (d : ℕ) (p : Params d) (state : Fin d → ℝ) (hh : ℕ),
      policy p (AgentState.reset p) state hh = Except.error PolicyErr.qPolicyIsNone) ∧
    (∀ (d : ℕ) (p : Params d) (interact : AgentState d → AgentState d × ℝ)
        (a : AgentState d) (state : Fin d → ℝ) (hh : ℕ),
      (fit p interact a).1.Q_policy.isSome = true ∧
      policy p (fit p interact a).1 state hh ≠ Except.error PolicyErr.qPolicyIsNone) := by
  constructor
  · intro d p state hh
    rfl
  · intro d p interact a state hh
    constructor
    · rfl
    · simp only [fit, policy, recommended_policy_solve]
      split_ifs <;> simp

/-- The agent used in the concrete part of C6: one active representative,
zero reward estimates, exploration bonus 1/2 everywhere. -/
noncomputable def agentC6 : AgentState 1 :=
  { AgentState.reset pEx with M := 1, B_sa := fun _ _ => 1 / 2 }

/-- C6: the final solve of fit stores a Q_policy that does not depend on the
bonus table at all, while the per-episode solve feeds R_hat + B_sa to
backward induction: with a zero bonus table the episode solve computes
exactly the bonus-free table, and on a concrete agent with bonus 1/2 the two
solves disagree (1/2 against 0). -/
theorem C6_bonus_in_exploration_only :
    (∀ (d : ℕ) (p : Params d) (a : AgentState d) (B2 : ℕ → ℕ → ℝ),
      (recommended_policy_solve p { a with B_sa := B2 }).Q_policy
          = (recommended_policy_solve p a).Q_policy) ∧
    (∀ (d : ℕ) (p : Params d) (a : AgentState d),
      a.B_sa = (fun _ _ => 0) → ∀ h s b, s < a.M →
        (exploration_solve p a).Q h s b
            = backward_induction a.R_hat a.P_hat a.M p.A p.horizon p.gamma p.v_max h s b) ∧
    ((exploration_solve pEx agentC6).Q 0 0 0 = 1 / 2 ∧
      ((recommended_policy_solve pEx agentC6).Q_policy.map (fun qp => qp.1 0 0 0))
          = some 0 ∧
      (1 / 2 : ℝ) ≠ 0) := by
  refine ⟨?_, ?_, ?_, ?_, ?_⟩
  · intro d p a B2
    rfl
  · intro d p a hB h s b hs
    simp only [exploration_solve]
    rw [if_pos hs, hB]
    norm_num
  · simp only [exploration_solve, agentC6, AgentState.reset, pEx, backward_induction,
      bwd_Q, bwd_V, clip_v]
    norm_num [Finset.sum_range_one]
  · simp only [recommended_policy_solve, agentC6, AgentState.reset, pEx,
      backward_induction, bwd_Q, bwd_V, clip_v, Option.map_some']
    norm_num [Finset.sum_range_one]
  · norm_num

/-- The zero-bonus agent used by the C6 witness. -/
noncomputable def agentC6zero : AgentState 1 :=
  { AgentState.reset pEx with M := 1, B_sa := fun _ _ => 0 }

/-- Witness for C6: on a concrete zero-bonus agent the episode solve agrees
with the bonus-free backward induction. -/
theorem C6_bonus_in_exploration_only_witness :
    (agentC6zero.B_sa = (fun _ _ => (0 : ℝ)) ∧ 0 < agentC6zero.M) ∧
    (exploration_solve pEx agentC6zero).Q 0 0 0
        = backward_induction agentC6zero.R_hat agentC6zero.P_hat agentC6zero.M pEx.A
            pEx.horizon pEx.gamma pEx.v_max 0 0 0 :=
  ⟨⟨rfl, by simp [agentC6zero, AgentState.reset]⟩,
    C6_bonus_in_exploration_only.2.1 1 pEx agentC6zero rfl 0 0 0
      (by simp [agentC6zero, AgentState.reset])⟩

/-- C8 (amended): with no active representative and the creation branch
refused (accept_new_repr false or zero capacity), map_to_representative
returns -1, which is negative hence not a valid representative index;
_get_action then reads row max_repr - 1 of Q, the last reserved row, via
Python negative indexing; policy however indexes Q_policy, which has only
M = 0 rows, so its row -1 is out of bounds and raises an IndexError instead
of reading a reserved row. -/
theorem C8_negative_index_handling :
    (∀ (d : ℕ) (state : Fin d → ℝ) (lp_metric : ℕ) (reprs : ℕ → Fin d → ℝ)
        (cap : ℕ) (min_dist : ℝ) (scaling : Fin d → ℝ) (accept : Bool),
      accept = false ∨ cap = 0 →
        (map_to_representative state lp_metric reprs cap 0 min_dist scaling accept).1
            = -1 ∧
        (map_to_representative state lp_metric reprs cap 0 min_dist scaling accept).1
            < 0) ∧
    (∀ (d : ℕ) (p : Params d) (a : AgentState d) (state : Fin d → ℝ) (hh : ℕ),
      a.M = 0 → 1 ≤ p.max_repr →
        get_action p a state hh
            = (if p.gamma = 1 then
                Except.ok (np_argmax p.A fun b => a.Q hh (p.max_repr - 1) b)
              else Except.ok (np_argmax p.A fun b => a.Q 0 (p.max_repr - 1) b))) ∧
    (∀ (d : ℕ) (p : Params d) (a : AgentState d) (state : Fin d → ℝ) (hh : ℕ)
        (qp : ℕ → ℕ → ℕ → ℝ),
      a.M = 0 → a.Q_policy = some (qp, 0) →
        policy p a state hh = Except.error PolicyErr.indexError) := by
  refine ⟨?_, ?_, ?_⟩
  · intro d state lp_metric reprs cap min_dist scaling accept hacc
    have hneg : ¬ ((min_dist : WithTop ℝ) <
        (map_scan (fun ii => ((metric_lp state (reprs ii) lp_metric scaling : ℝ) :
          WithTop ℝ)) 0).2 ∧ 0 < cap ∧ accept = true) := by
      rcases hacc with h | h
      · rintro ⟨_, _, hacc2⟩
        rw [h] at hacc2
        exact Bool.noConfusion hacc2
      · rintro ⟨_, hcap, _⟩
        omega
    simp only [map_to_representative]
    rw [if_neg hneg]
    exact ⟨rfl, by norm_num [map_scan]⟩
  · intro d p a state hh hM hcap
    have hmap : (map_to_representative state p.lp_metric a.representative_states
        p.max_repr a.M p.min_dist p.scaling false).1 = -1 := by
      rw [hM]
      simp only [map_to_representative]
      rw [if_neg]
      · rfl
      · rintro ⟨_, _, hacc2⟩
        exact Bool.noConfusion hacc2
    have htn : ((-1 : ℤ) + (p.max_repr : ℤ)).toNat = p.max_repr - 1 := by omega
    simp only [get_action, hmap, np_index]
    rw [if_pos (by norm_num : (-1 : ℤ) < 0)]
    rw [if_pos (⟨by omega, by omega⟩ :
      (0 : ℤ) ≤ -1 + (p.max_repr : ℤ) ∧ -1 + (p.max_repr : ℤ) < (p.max_repr : ℤ))]
    simp only [htn]
  · intro d p a state hh qp hM hQ
    have hmap : (map_to_representative state p.lp_metric a.representative_states
        p.max_repr a.M p.min_dist p.scaling false).1 = -1 := by
      rw [hM]
      simp only [map_to_representative]
      rw [if_neg]
      · rfl
      · rintro ⟨_, _, hacc2⟩
        exact Bool.noConfusion hacc2
    simp only [policy, hQ, hmap, np_index]
    rw [if_pos (by norm_num : (-1 : ℤ) < 0)]
    rw [if_neg]
    rintro ⟨hge, _⟩
    norm_num at hge

/-- Witness for C8 on the freshly reset concrete agent: capacity 3, M = 0,
so _get_action reads row 2 of the exploration table. -/
theorem C8_negative_index_handling_witness :
    ((AgentState.reset pEx).M = 0 ∧ 1 ≤ pEx.max_repr) ∧
    get_action pEx (AgentState.reset pEx) (fun _ => 0) 0
        = (if pEx.gamma = 1 then
            Except.ok (np_argmax pEx.A fun b =>
              (AgentState.reset pEx).Q 0 (pEx.max_repr - 1) b)
          else Except.ok (np_argmax pEx.A fun b =>
            (AgentState.reset pEx).Q 0 (pEx.max_repr - 1) b)) :=
  ⟨⟨rfl, by norm_num [pEx]⟩,
    C8_negative_index_handling.2.1 1 pEx (AgentState.reset pEx) (fun _ => 0) 0 rfl
      (by norm_num [pEx])⟩

/-- The agent used to refute C8 as stated for policy: M = 0 and a Q_policy
table with zero rows, exactly what fit stores when no representative was ever
created. -/
noncomputable def agentC8 : AgentState 1 :=
  { AgentState.reset pEx with Q_policy := some (fun _ _ _ => 0, 0) }

/-- Counterexample to C8 as stated: on the concrete zero-representative
agent, policy raises an IndexError (its Q_policy has M = 0 rows, so row -1
is out of bounds) rather than reading the last reserved row of the table. -/
theorem C8_policy_counterexample :
    agentC8.M = 0 ∧
    policy pEx agentC8 (fun _ => 0) 0 = Except.error PolicyErr.indexError := by
  refine ⟨rfl, ?_⟩
  have hmap : (map_to_representative (fun _ : Fin 1 => (0 : ℝ)) pEx.lp_metric
      agentC8.representative_states pEx.max_repr agentC8.M pEx.min_dist pEx.scaling
      false).1 = -1 := by
    simp only [map_to_representative]
    rw [if_neg]
    · rfl
    · rintro ⟨_, _, hacc2⟩
      exact Bool.noConfusion hacc2
  have hQ : agentC8.Q_policy = some ((fun _ _ _ => (0 : ℝ)), 0) := rfl
  simp only [policy, hQ, hmap, np_index]
  rw [if_pos (by norm_num : (-1 : ℤ) < 0)]
  rw [if_neg]
  rintro ⟨hge, _⟩
  norm_num at hge
